import Mathlib

/-!
Verification development for the remote live-debug system repository.

Part 1 embeds the firmware-artifact copier (`src/Gateway/usb_elf_copier.cpp`),
the one program present in the sources.  Part 2 models the core components
(Symbol Resolver, Protocol Master, Session Gateway, Polling Scheduler), whose
implementation files are not part of the sources; those definitions are
modelled from the design document and are marked as such.
-/

namespace Copier

/-- The extension of a filename, following `std::filesystem::path::extension`
on POSIX: the suffix starting at the last dot, except that `"."`, `".."`,
a name with no dot, and a name whose only dot is its first character have
an empty extension. -/
def extOf (s : String) : String :=
  if s = "." ∨ s = ".." then ""
  else
    match (List.range s.data.length).filter (fun i => s.data.getD i ' ' = '.') |>.getLast? with
    | none => ""
    | some i => if i = 0 then "" else ⟨s.data.drop i⟩

/-- One entry of the mounted source directory, as seen by
`std::filesystem::directory_iterator`: its filename, whether it is a regular
file, and its byte content. -/
structure SrcEntry where
  filename : String
  isRegularFile : Bool
  content : List Nat
deriving Repr, DecidableEq

/-- The copy condition of `usb_elf_copier.cpp` line 44:
`entry.is_regular_file() && entry.path().extension() == ".elf"`. -/
def eligible (e : SrcEntry) : Bool :=
  e.isRegularFile && extOf e.filename == ".elf"

/-- The target directory, a finite map from filename to file content. -/
def Target : Type := String → Option (List Nat)

/-- The copy loop of `usb_elf_copier.cpp` lines 43–48: each eligible entry is
copied to the target under its own filename with
`copy_options::overwrite_existing`; every other entry is ignored. -/
def copyElf (t : Target) : List SrcEntry → Target
  | [] => t
  | e :: es =>
      copyElf (if eligible e then fun n => if n = e.filename then some e.content else t n else t) es

/-- Result of a run of the copier process: the exit status and which of the
side-effecting steps were reached. -/
structure RunResult where
  exitCode : Nat
  mountAttempted : Bool
  copyAttempted : Bool
  umountAttempted : Bool
deriving Repr, DecidableEq

/-- Outcome of the `mkdir` call: success, failure with `errno == EEXIST`,
or failure with any other `errno`. -/
inductive MkdirResult
  | ok
  | eexist
  | err
deriving Repr, DecidableEq

/-- Outcomes of the system calls the copier performs, one run's worth. -/
structure Env where
  readlinkOk : Bool
  mkdirRes : MkdirResult
  mountOk : Bool
  copyThrows : Bool
  umountOk : Bool
deriving Repr, DecidableEq

/-- Control flow of `main` in `usb_elf_copier.cpp`: return 1 if `readlink`
fails; return 1 if `mkdir` fails with an errno other than `EEXIST`; return 1
if `mount` fails; copy inside a `try` block whose `filesystem_error` handler
only reports; then always run `umount`, returning 1 if it fails and 0
otherwise. -/
def copierMain (env : Env) : RunResult :=
  if ¬ env.readlinkOk then ⟨1, false, false, false⟩
  else if env.mkdirRes = .err then ⟨1, false, false, false⟩
  else if ¬ env.mountOk then ⟨1, true, false, false⟩
  else if ¬ env.umountOk then ⟨1, true, true, true⟩
  else ⟨0, true, true, true⟩

/-- Device-path resolution of `usb_elf_copier.cpp` lines 19–24: the symlink
target is prefixed with `/dev/`; the candidate partition is that path with
`"1"` appended; if `access(partition, F_OK)` fails the whole device path is
used instead. -/
def resolveDevice (target : String) (partitionExists : Bool) : String :=
  let real_dev := "/dev/" ++ target
  let partition := real_dev ++ "1"
  if partitionExists then partition else real_dev

/-- The fixed mount point of `usb_elf_copier.cpp` line 26. -/
def mount_point : String := "/mnt/elf_usb"

/-- The mount command assembled on line 32: `"mount " + partition + " " + mount_point`. -/
def mountCmd (target : String) (partitionExists : Bool) : String :=
  "mount " ++ resolveDevice target partitionExists ++ " " ++ mount_point

end Copier

namespace Copier

theorem copyElf_untouched (t : Target) (es : List SrcEntry) (n : String)
    (h : ∀ e ∈ es, e.filename = n → eligible e = false) :
    copyElf t es n = t n := by
  induction es generalizing t with
  | nil => rfl
  | cons a es ih =>
      have ha := h a (List.mem_cons_self a es)
      have htail : ∀ e ∈ es, e.filename = n → eligible e = false :=
        fun e he => h e (List.mem_cons_of_mem a he)
      by_cases hel : eligible a = true
      · have hne : a.filename ≠ n := fun hfn => by simp [ha hfn] at hel
        simp only [copyElf, hel, if_true]
        rw [ih _ htail]
        simp [Ne.symm hne]
      · simp only [copyElf, hel, if_false]
        exact ih _ htail

theorem copyElf_copied (t : Target) (es : List SrcEntry) (e : SrcEntry)
    (hnodup : (es.map SrcEntry.filename).Nodup) (hmem : e ∈ es)
    (hel : eligible e = true) :
    copyElf t es e.filename = some e.content := by
  induction es generalizing t with
  | nil => exact absurd hmem (List.not_mem_nil e)
  | cons a es ih =>
      rcases List.mem_cons.mp hmem with rfl | hmem'
      · have hnotin : ∀ e' ∈ es, e'.filename = e.filename → eligible e' = false := by
          intro e' he' hfn
          exact absurd (hfn ▸ List.mem_map_of_mem SrcEntry.filename he')
            ((List.nodup_cons.mp hnodup).1)
        simp only [copyElf, hel, if_true]
        rw [copyElf_untouched _ _ _ hnotin]
        simp
      · have hfn : e.filename ≠ a.filename := by
          intro hfe
          exact (List.nodup_cons.mp hnodup).1 (hfe ▸ List.mem_map_of_mem SrcEntry.filename hmem')
        by_cases hela : eligible a = true
        · simp only [copyElf, hela, if_true]
          exact ih _ (List.nodup_cons.mp hnodup).2 hmem'
        · simp only [copyElf, hela, if_false]
          exact ih _ (List.nodup_cons.mp hnodup).2 hmem'

end Copier

/-- C8: the copier copies from the source directory to the target exactly the
directory entries that are regular files with extension `.elf` — each such
entry ends up at the target under its own name with its content, overwriting
whatever was there — and an entry that is not a regular file or has another
extension never affects the target. -/
theorem copier_copies_exactly_elf_regular_files
    (t : Copier.Target) (es : List Copier.SrcEntry)
    (hnodup : (es.map Copier.SrcEntry.filename).Nodup) :
    (∀ e ∈ es, Copier.eligible e = true →
      Copier.copyElf t es e.filename = some e.content) ∧
    (∀ n : String, (∀ e ∈ es, e.filename = n → Copier.eligible e = false) →
      Copier.copyElf t es n = t n) :=
  ⟨fun e hmem hel => Copier.copyElf_copied t es e hnodup hmem hel,
   fun n h => Copier.copyElf_untouched t es n h⟩

/-- Witness for C8 on a concrete directory: `a.elf` (regular) is copied over
an existing target file, while the non-regular `b.elf` and the regular
`c.txt` leave the target untouched. -/
theorem copier_copies_exactly_elf_regular_files_witness :
    Copier.copyElf (fun _ => some [9])
      [⟨"a.elf", true, [1, 2]⟩, ⟨"b.elf", false, [3]⟩, ⟨"c.txt", true, [4]⟩]
      "a.elf" = some [1, 2] ∧
    Copier.copyElf (fun _ => some [9])
      [⟨"a.elf", true, [1, 2]⟩, ⟨"b.elf", false, [3]⟩, ⟨"c.txt", true, [4]⟩]
      "c.txt" = some [9] := by
  have h := copier_copies_exactly_elf_regular_files (fun _ => some [9])
    [⟨"a.elf", true, [1, 2]⟩, ⟨"b.elf", false, [3]⟩, ⟨"c.txt", true, [4]⟩]
    (by decide)
  exact ⟨h.1 ⟨"a.elf", true, [1, 2]⟩ (by simp) (by decide),
         h.2 "c.txt" (by decide)⟩

/-- C9 counterexample: when `mkdir` fails with `EEXIST` and every other step
succeeds, the process exits with status 0 although `mkdir` did not succeed —
so "exits with status 0 only if readlink, mkdir, mount, and umount all
succeed" is false as stated. -/
theorem copier_exit_zero_without_mkdir_success :
    (Copier.copierMain ⟨true, .eexist, true, false, true⟩).exitCode = 0 ∧
    (⟨true, .eexist, true, false, true⟩ : Copier.Env).mkdirRes ≠
      Copier.MkdirResult.ok := by
  decide

/-- C9 (amended): whenever the mount command has succeeded, the copier
attempts `umount` before exiting, even if the copy step raises a filesystem
error (which is caught, not propagated); and the process exits with status 0
only if `readlink`, `mount` and `umount` succeed and `mkdir` either succeeds
or fails with `EEXIST`. -/
theorem copier_umount_after_mount_and_exit_zero (env : Copier.Env) :
    (env.readlinkOk = true → env.mkdirRes ≠ Copier.MkdirResult.err →
      env.mountOk = true → (Copier.copierMain env).umountAttempted = true) ∧
    ((Copier.copierMain env).exitCode = 0 →
      env.readlinkOk = true ∧
      (env.mkdirRes = Copier.MkdirResult.ok ∨
        env.mkdirRes = Copier.MkdirResult.eexist) ∧
      env.mountOk = true ∧ env.umountOk = true) := by
  rcases env with ⟨r, m, mo, c, u⟩
  cases r <;> cases m <;> cases mo <;> cases c <;> cases u <;>
    simp [Copier.copierMain]

namespace Resolver

/-- Error taxonomy of the Symbol Resolver (§7 of the design document). -/
inductive ResolverError
  | MalformedImage
  | UnsupportedFormat
  | SymbolNotFound
  | InvalidPath
deriving Repr, DecidableEq

/-- Modelled from the spec: a Symbol of the data model (§3), whose
implementation file is not part of the sources — name, address, byte size,
and the offsets of its named structure fields (empty for non-structures). -/
structure Symbol where
  name : String
  address : Nat
  size : Nat
  fieldOffsets : List Nat
deriving Repr, DecidableEq

/-- A name-indexed SymbolTable (§3), an association list built once per
loaded firmware image. -/
abbrev SymbolTable : Type := List (String × Symbol)

/-- Modelled from the spec: `lookup(name) -> Symbol` of the Symbol Resolver
(§4.1), whose implementation file is not part of the sources — it fails with
`SymbolNotFound` if the name is absent from the table. -/
def lookup (t : SymbolTable) (n : String) : Except ResolverError Symbol :=
  match t.find? (fun p => p.1 == n) with
  | some p => .ok p.2
  | none => .error .SymbolNotFound

/-- Modelled from the spec: a firmware image's debug metadata — the declared
addressable memory size and the symbol entries of the debug sections. -/
structure FirmwareImage where
  memSize : Nat
  entries : List Symbol
deriving Repr, DecidableEq

/-- Modelled from the spec: validity of one metadata entry against the
image's declared memory range (§3): address+size never exceeds the range and
structure fields' offsets are strictly within the parent's size. -/
def entryValid (memSize : Nat) (s : Symbol) : Bool :=
  decide (s.address + s.size ≤ memSize) && s.fieldOffsets.all (fun o => o < s.size)

/-- Modelled from the spec: an artifact is valid when all entries satisfy the
data-model invariants and symbol names are unique within the image (§3). -/
def validImage (img : FirmwareImage) : Bool :=
  img.entries.all (entryValid img.memSize) &&
    decide (img.entries.map Symbol.name).Nodup

/-- Modelled from the spec: the Symbol Resolver's table construction (§4.1),
whose implementation file is not part of the sources — a valid artifact
produces a SymbolTable, anything else fails with `MalformedImage`. -/
def buildTable (img : FirmwareImage) : Except ResolverError SymbolTable :=
  if validImage img then .ok (img.entries.map (fun s => (s.name, s)))
  else .error .MalformedImage

end Resolver

/-- C2: looking up a name that is not present in the symbol table fails with
exactly `SymbolNotFound` — never another error and never success. -/
theorem lookup_absent_symbol_not_found (t : Resolver.SymbolTable) (n : String)
    (h : ∀ p ∈ t, p.1 ≠ n) :
    Resolver.lookup t n = Except.error Resolver.ResolverError.SymbolNotFound := by
  have hnone : t.find? (fun p => p.1 == n) = none :=
    List.find?_eq_none.mpr (fun p hp => by simpa using h p hp)
  simp [Resolver.lookup, hnone]

/-- Witness for C2: a concrete table holding only `volt` rejects `curr`
with `SymbolNotFound`. -/
theorem lookup_absent_symbol_not_found_witness :
    Resolver.lookup [("volt", ⟨"volt", 16, 4, []⟩)] "curr" =
      Except.error Resolver.ResolverError.SymbolNotFound :=
  lookup_absent_symbol_not_found [("volt", ⟨"volt", 16, 4, []⟩)] "curr"
    (by decide)

/-- C6: a symbol table built from a valid firmware artifact satisfies the
data-model invariants — every symbol's address plus size stays within the
declared memory range and every structure field offset is strictly within
the parent's size — and every symbol of the debug metadata resolves
successfully to an address inside the declared range. -/
theorem symbol_table_built_invariants (img : Resolver.FirmwareImage)
    (t : Resolver.SymbolTable) (h : Resolver.buildTable img = Except.ok t) :
    (∀ p ∈ t, p.2.address + p.2.size ≤ img.memSize ∧
      ∀ o ∈ p.2.fieldOffsets, o < p.2.size) ∧
    (∀ s ∈ img.entries, ∃ sym : Resolver.Symbol,
      Resolver.lookup t s.name = Except.ok sym ∧
      sym.address + sym.size ≤ img.memSize) := by
  unfold Resolver.buildTable at h
  split at h
  case isFalse => exact absurd h (by simp)
  case isTrue hv =>
    injection h with h
    subst h
    have hvalid : ∀ s ∈ img.entries, Resolver.entryValid img.memSize s = true := by
      have := (Bool.and_eq_true _ _).mp hv
      exact List.all_eq_true.mp this.1
    have hmemrange : ∀ p ∈ img.entries.map (fun s => (s.name, s)),
        p.2.address + p.2.size ≤ img.memSize ∧
        ∀ o ∈ p.2.fieldOffsets, o < p.2.size := by
      intro p hp
      obtain ⟨s, hs, rfl⟩ := List.mem_map.mp hp
      have := hvalid s hs
      unfold Resolver.entryValid at this
      have h2 := (Bool.and_eq_true _ _).mp this
      refine ⟨by simpa using h2.1, ?_⟩
      intro o ho
      have := List.all_eq_true.mp h2.2 o ho
      simpa using this
    refine ⟨hmemrange, ?_⟩
    intro s hs
    have hmem : (s.name, s) ∈ img.entries.map (fun s => (s.name, s)) :=
      List.mem_map_of_mem _ hs
    have hsome : (List.find? (fun p => p.1 == s.name)
        (img.entries.map (fun s => (s.name, s)))).isSome := by
      rw [List.find?_isSome]
      exact ⟨(s.name, s), hmem, by simp⟩
    obtain ⟨p, hp⟩ := Option.isSome_iff_exists.mp hsome
    have hpmem := List.mem_of_find?_eq_some hp
    exact ⟨p.2, by simp [Resolver.lookup, hp], (hmemrange p hpmem).1⟩

/-- Witness for C6 on a concrete valid image: its scalar `v` resolves and
sits inside the 256-byte declared range. -/
theorem symbol_table_built_invariants_witness :
    ∃ sym : Resolver.Symbol,
      Resolver.lookup
        [("v", ⟨"v", 16, 4, []⟩), ("s", ⟨"s", 32, 8, [0, 4]⟩)] "v" =
        Except.ok sym ∧
      sym.address + sym.size ≤ 256 :=
  (symbol_table_built_invariants ⟨256, [⟨"v", 16, 4, []⟩, ⟨"s", 32, 8, [0, 4]⟩]⟩
      [("v", ⟨"v", 16, 4, []⟩), ("s", ⟨"s", 32, 8, [0, 4]⟩)] rfl).2
    ⟨"v", 16, 4, []⟩ (by simp)

namespace Master

/-- Protocol-session states of the data model (§3). -/
inductive SessionState
  | Disconnected
  | Connecting
  | Connected
  | Measuring
deriving Repr, DecidableEq

/-- Error taxonomy of the Protocol Master (§7). -/
inductive PMError
  | Timeout
  | Rejected
  | SessionError
  | TransportError
  | ControllerUnavailable
deriving Repr, DecidableEq

/-- Modelled from the spec: one controller's protocol session (§3, §4.2),
whose implementation file is not part of the sources — session state, the
slave's byte-addressed memory, and the memory transfer pointer established
by `setAddress`. -/
structure Controller where
  session : SessionState
  mem : Nat → Nat
  mta : Nat

/-- A session is established in Connected or Measuring (§4.2). -/
def established : SessionState → Bool
  | .Connected => true
  | .Measuring => true
  | _ => false

/-- The transport's maximum frame payload, an implementation-configurable
constant (§9 leaves its value open). -/
def maxFramePayload : Nat := 8

/-- Reading `n` bytes of a byte-addressed memory starting at `addr`. -/
def readBytes (mem : Nat → Nat) (addr n : Nat) : List Nat :=
  (List.range n).map (fun i => mem (addr + i))

/-- Writing a byte sequence into a byte-addressed memory starting at `addr`,
one byte at a time. -/
def writeBytes (mem : Nat → Nat) (addr : Nat) : List Nat → (Nat → Nat)
  | [] => mem
  | b :: bs => writeBytes (fun a => if a = addr then b else mem a) (addr + 1) bs

/-- Modelled from the spec: the wire-level write of `download` (§4.2) —
the byte sequence is cut into chunks bounded by the transport's maximum
frame payload and the chunks are written in order, each advancing the
on-wire pointer past the previous chunk. -/
def writeChunked (mem : Nat → Nat) (addr : Nat) (bs : List Nat) : Nat → Nat :=
  if h : bs = [] then mem
  else
    writeChunked (writeBytes mem addr (bs.take maxFramePayload))
      (addr + maxFramePayload) (bs.drop maxFramePayload)
termination_by bs.length
decreasing_by
  simp only [List.length_drop]
  have : bs.length ≠ 0 := fun hlen => h (List.eq_nil_of_length_eq_zero hlen)
  simp only [maxFramePayload]
  omega

/-- Modelled from the spec: the wire-level read of `upload` (§4.2) — the
requested size is served as a sequence of chunks bounded by the transport's
maximum frame payload, reassembled in order. -/
def readChunked (mem : Nat → Nat) (addr n : Nat) : List Nat :=
  if h : n = 0 then []
  else
    readBytes mem addr (min maxFramePayload n) ++
      readChunked mem (addr + maxFramePayload) (n - maxFramePayload)
termination_by n
decreasing_by
  simp only [maxFramePayload]
  omega

/-- Modelled from the spec: `setAddress` (§4.2), whose implementation file is
not part of the sources — valid only in Connected/Measuring, it establishes
the memory transfer pointer, and fails with `SessionError` otherwise. -/
def setAddress (c : Controller) (addr : Nat) : Except PMError Controller :=
  if established c.session then .ok { c with mta := addr }
  else .error .SessionError

/-- Outcome of one protocol operation: the controller afterwards, the
result, and how many transport frames were exchanged on the wire. -/
structure OpResult (α : Type) where
  ctrl : Controller
  result : Except PMError α
  framesSent : Nat

/-- Number of chunks a transfer of `n` bytes needs. -/
def numChunks (n : Nat) : Nat := (n + maxFramePayload - 1) / maxFramePayload

/-- Modelled from the spec: `download` (§4.2), whose implementation file is
not part of the sources — valid only with an established session (else
`SessionError`, no traffic); a transport fault yields `TransportError` and
forces the session to Disconnected; otherwise the bytes are written chunked
at the memory transfer pointer. -/
def download (c : Controller) (bs : List Nat) (fault : Bool) :
    OpResult Unit :=
  if established c.session then
    if fault then
      ⟨{ c with session := .Disconnected }, .error .TransportError,
        numChunks bs.length⟩
    else
      ⟨{ c with mem := writeChunked c.mem c.mta bs }, .ok (),
        numChunks bs.length⟩
  else ⟨c, .error .SessionError, 0⟩

/-- Modelled from the spec: `upload` (§4.2), whose implementation file is not
part of the sources — symmetric to `download`: with an established session
it reads `n` bytes chunked from the memory transfer pointer; while not
established it fails with `SessionError` and generates no traffic. -/
def upload (c : Controller) (n : Nat) (fault : Bool) :
    OpResult (List Nat) :=
  if established c.session then
    if fault then
      ⟨{ c with session := .Disconnected }, .error .TransportError,
        numChunks n⟩
    else ⟨c, .ok (readChunked c.mem c.mta n), numChunks n⟩
  else ⟨c, .error .SessionError, 0⟩

theorem writeBytes_lt (bs : List Nat) :
    ∀ (mem : Nat → Nat) (addr a : Nat), a < addr →
      writeBytes mem addr bs a = mem a := by
  induction bs with
  | nil => intro mem addr a _; rfl
  | cons b bs ih =>
      intro mem addr a ha
      show writeBytes (fun x => if x = addr then b else mem x) (addr + 1) bs a = mem a
      rw [ih _ (addr + 1) a (by omega)]
      simp [Nat.ne_of_lt ha]

theorem readBytes_succ (mem : Nat → Nat) (addr n : Nat) :
    readBytes mem addr (n + 1) = mem addr :: readBytes mem (addr + 1) n := by
  unfold readBytes
  rw [List.range_succ_eq_map]
  simp only [List.map_cons, Nat.add_zero, List.map_map]
  congr 1
  apply List.map_congr_left
  intro i _
  simp only [Function.comp_apply]
  congr 1
  omega

theorem readBytes_add (mem : Nat → Nat) (addr a b : Nat) :
    readBytes mem addr (a + b) =
      readBytes mem addr a ++ readBytes mem (addr + a) b := by
  unfold readBytes
  rw [List.range_add, List.map_append, List.map_map]
  congr 1
  apply List.map_congr_left
  intro i _
  simp only [Function.comp_apply]
  congr 1
  omega

theorem readBytes_writeBytes (bs : List Nat) :
    ∀ (mem : Nat → Nat) (addr : Nat),
      readBytes (writeBytes mem addr bs) addr bs.length = bs := by
  induction bs with
  | nil => intro mem addr; rfl
  | cons b bs ih =>
      intro mem addr
      show readBytes (writeBytes _ (addr + 1) bs) addr (bs.length + 1) = b :: bs
      rw [readBytes_succ]
      congr 1
      · rw [writeBytes_lt bs _ (addr + 1) addr (by omega)]
        simp
      · exact ih _ (addr + 1)

theorem writeBytes_cons (mem : Nat → Nat) (addr b : Nat) (bs : List Nat) :
    writeBytes mem addr (b :: bs) =
      writeBytes (fun a => if a = addr then b else mem a) (addr + 1) bs := rfl

theorem writeBytes_take_drop (m : Nat) :
    ∀ (bs : List Nat) (mem : Nat → Nat) (addr : Nat),
      writeBytes (writeBytes mem addr (bs.take m)) (addr + m) (bs.drop m) =
        writeBytes mem addr bs := by
  induction m with
  | zero =>
      intro bs mem addr
      simp [writeBytes]
  | succ m ih =>
      intro bs mem addr
      cases bs with
      | nil => simp [writeBytes]
      | cons b bs =>
          simp only [List.take_succ_cons, List.drop_succ_cons,
            writeBytes_cons]
          have harith : addr + (m + 1) = (addr + 1) + m := by omega
          rw [harith]
          exact ih bs _ (addr + 1)

theorem writeChunked_eq :
    ∀ (n : Nat) (bs : List Nat), bs.length = n →
      ∀ (mem : Nat → Nat) (addr : Nat),
        writeChunked mem addr bs = writeBytes mem addr bs := by
  intro n
  induction n using Nat.strong_induction_on with
  | _ n ih =>
      intro bs hlen mem addr
      rw [writeChunked]
      by_cases hb : bs = []
      · simp [hb, writeBytes]
      · rw [dif_neg hb]
        have hpos : 0 < bs.length := List.length_pos.mpr hb
        have hM : maxFramePayload = 8 := rfl
        have hdrop : (bs.drop maxFramePayload).length = bs.length - maxFramePayload :=
          List.length_drop _ _
        rw [ih (bs.length - maxFramePayload) (by omega) _ hdrop
          (writeBytes mem addr (bs.take maxFramePayload)) (addr + maxFramePayload)]
        exact writeBytes_take_drop maxFramePayload bs mem addr

theorem readChunked_eq :
    ∀ (n : Nat) (mem : Nat → Nat) (addr : Nat),
      readChunked mem addr n = readBytes mem addr n := by
  intro n
  induction n using Nat.strong_induction_on with
  | _ n ih =>
      intro mem addr
      rw [readChunked]
      by_cases h0 : n = 0
      · simp [h0, readBytes]
      · rw [dif_neg h0]
        have hM : maxFramePayload = 8 := rfl
        by_cases hle : n ≤ maxFramePayload
        · have hmin : min maxFramePayload n = n := by omega
          have hsub : n - maxFramePayload = 0 := by omega
          rw [hmin, hsub, readChunked]
          simp
        · have hmin : min maxFramePayload n = maxFramePayload := by omega
          rw [hmin, ih (n - maxFramePayload) (by omega) mem (addr + maxFramePayload),
            ← readBytes_add]
          congr 1
          omega

theorem readChunked_writeChunked (mem : Nat → Nat) (addr : Nat) (bs : List Nat) :
    readChunked (writeChunked mem addr bs) addr bs.length = bs := by
  rw [readChunked_eq, writeChunked_eq bs.length bs rfl, readBytes_writeBytes]

/-- JSON Response shape of the external protocol (§6): echoed command
identifier, status, human-readable message, returned bytes for uploads. -/
structure Response where
  command_id : String
  status : String
  message : String
  bytes : List Nat
deriving Repr, DecidableEq

/-- Modelled from the spec: the message the Session Gateway attaches to each
Protocol Master error when encoding an error Response (§7, §8) — an UPLOAD
before a successful connect must indicate that the session is not
established. -/
def errorMessage : PMError → String
  | .SessionError => "session not established"
  | .Timeout => "timeout waiting for controller"
  | .Rejected => "incompatible protocol version"
  | .TransportError => "transport link fault"
  | .ControllerUnavailable => "controller unavailable"

/-- Modelled from the spec: the Session Gateway's handling of an UPLOAD
command against one controller (§4.3), whose implementation file is not part
of the sources — the Protocol Master outcome is encoded as a Response
echoing the command identifier; the controller afterwards and the number of
transport frames generated are returned alongside. -/
def handleUpload (c : Controller) (cid : String) (n : Nat) (fault : Bool) :
    Response × Controller × Nat :=
  let r := upload c n fault
  match r.result with
  | .ok bs => (⟨cid, "success", "upload complete", bs⟩, r.ctrl, r.framesSent)
  | .error e => (⟨cid, "error", errorMessage e, []⟩, r.ctrl, r.framesSent)

end Master

/-- C1: against a controller with an established (Connected or Measuring)
session, `setAddress` to some address, then `download(bytes)`, then
`upload(len(bytes))` — with no transport fault injected in either exchange —
succeeds and returns exactly `bytes`. -/
theorem protocol_roundtrip_download_upload (c c₁ : Master.Controller)
    (a : Nat) (bs : List Nat)
    (hest : Master.established c.session = true)
    (hset : Master.setAddress c a = Except.ok c₁) :
    (Master.download c₁ bs false).result = Except.ok () ∧
    (Master.upload (Master.download c₁ bs false).ctrl bs.length false).result =
      Except.ok bs := by
  unfold Master.setAddress at hset
  rw [if_pos hest] at hset
  injection hset with hset
  subst hset
  unfold Master.download Master.upload
  simp only [hest, if_true, Bool.false_eq_true, if_false]
  exact ⟨trivial, by rw [Master.readChunked_writeChunked]⟩

/-- Witness for C1: a Connected controller over an all-zero memory round
trips the bytes `[1, 2, 3]` through address 16. -/
theorem protocol_roundtrip_download_upload_witness :
    (Master.download ⟨.Connected, fun _ => 0, 16⟩ [1, 2, 3] false).result =
      Except.ok () ∧
    (Master.upload
      (Master.download ⟨.Connected, fun _ => 0, 16⟩ [1, 2, 3] false).ctrl
      3 false).result = Except.ok [1, 2, 3] :=
  protocol_roundtrip_download_upload ⟨.Connected, fun _ => 0, 0⟩
    ⟨.Connected, fun _ => 0, 16⟩ 16 [1, 2, 3] rfl rfl

/-- C4: an UPLOAD command against a controller whose session is Disconnected
yields an error Response whose message indicates the session is not
established, with zero transport frames generated — and `setAddress` while
Disconnected fails with `SessionError`. -/
theorem upload_while_disconnected_no_traffic (c : Master.Controller)
    (cid : String) (n a : Nat) (fault : Bool)
    (h : c.session = Master.SessionState.Disconnected) :
    (Master.handleUpload c cid n fault).1.status = "error" ∧
    (Master.handleUpload c cid n fault).1.message = "session not established" ∧
    (Master.handleUpload c cid n fault).2.2 = 0 ∧
    Master.setAddress c a = Except.error Master.PMError.SessionError := by
  have hest : Master.established c.session = false := by rw [h]; rfl
  simp [Master.handleUpload, Master.upload, Master.setAddress, hest,
    Master.errorMessage]

/-- Witness for C4: a concrete Disconnected controller rejects an UPLOAD
with the session-not-established error Response and no traffic. -/
theorem upload_while_disconnected_no_traffic_witness :
    (Master.handleUpload ⟨.Disconnected, fun _ => 0, 0⟩ "cmd7" 4 false).1.status =
      "error" ∧
    (Master.handleUpload ⟨.Disconnected, fun _ => 0, 0⟩ "cmd7" 4 false).1.message =
      "session not established" ∧
    (Master.handleUpload ⟨.Disconnected, fun _ => 0, 0⟩ "cmd7" 4 false).2.2 = 0 ∧
    Master.setAddress ⟨.Disconnected, fun _ => 0, 0⟩ 16 =
      Except.error Master.PMError.SessionError :=
  upload_while_disconnected_no_traffic ⟨.Disconnected, fun _ => 0, 0⟩ "cmd7"
    4 16 false rfl

namespace Queueing

/-- Pointwise update of the per-controller queue assignment. -/
def updQ (q : Nat → List Nat) (c : Nat) (v : List Nat) : Nat → List Nat :=
  fun d => if d = c then v else q d

/-- Modelled from the spec: the per-controller serialized execution contexts
(§4.2, §5), whose implementation file is not part of the sources — each
controller has its own FIFO queue of admitted commands, and a run under an
arbitrary interleaving gives one controller's link a turn per scheduler step;
a turn completes the head command of that controller's queue (success,
failure and timeout alike are completions), never interleaving two commands
of one controller and never touching another controller's queue. -/
def runSchedule (queues : Nat → List Nat) : List Nat → List (Nat × Nat)
  | [] => []
  | d :: sched =>
      match queues d with
      | [] => runSchedule queues sched
      | cmd :: rest => (d, cmd) :: runSchedule (updQ queues d rest) sched

/-- The completions observed for one controller during a run, in order. -/
def completionsFor (c : Nat) (run : List (Nat × Nat)) : List Nat :=
  (run.filter (fun p => p.1 == c)).map Prod.snd

theorem completionsFor_cons (c : Nat) (p : Nat × Nat)
    (run : List (Nat × Nat)) :
    completionsFor c (p :: run) =
      if p.1 = c then p.2 :: completionsFor c run
      else completionsFor c run := by
  by_cases h : p.1 = c
  · simp [completionsFor, List.filter_cons, h]
  · simp [completionsFor, List.filter_cons, h]

theorem runSchedule_completions (sched : List Nat) :
    ∀ (queues : Nat → List Nat) (c : Nat),
      completionsFor c (runSchedule queues sched) =
        (queues c).take (sched.count c) := by
  induction sched with
  | nil => intro queues c; simp [runSchedule, completionsFor]
  | cons d sched ih =>
      intro queues c
      have hcount : (d :: sched).count c =
          sched.count c + if d = c then 1 else 0 := by
        by_cases h : d = c
        · subst h; simp [List.count_cons]
        · simp [List.count_cons, h, Ne.symm h]
      cases hq : queues d with
      | nil =>
          simp only [runSchedule, hq]
          rw [ih queues c, hcount]
          by_cases h : d = c
          · subst h
            rw [hq]
            simp
          · simp [h]
      | cons cmd rest =>
          simp only [runSchedule, hq]
          rw [completionsFor_cons, ih (updQ queues d rest) c, hcount]
          by_cases h : d = c
          · subst h
            simp only [if_pos rfl]
            rw [hq]
            simp [updQ]
          · simp only [if_neg h]
            simp [updQ, Ne.symm h, h]

end Queueing

/-- C3: commands admitted to one controller's queue complete exactly in
admission order — the completions observed for a controller are an initial
segment of its queue, one per turn its link got — and they do not depend on
any other controller's queue or its outcomes: two queue assignments agreeing
on a controller yield identical completions for it under the same
interleaving. -/
theorem per_controller_fifo_and_independence
    (queues queues₂ : Nat → List Nat) (sched : List Nat) (c : Nat)
    (hagree : queues c = queues₂ c) :
    Queueing.completionsFor c (Queueing.runSchedule queues sched) =
      (queues c).take (sched.count c) ∧
    Queueing.completionsFor c (Queueing.runSchedule queues sched) =
      Queueing.completionsFor c (Queueing.runSchedule queues₂ sched) := by
  refine ⟨Queueing.runSchedule_completions sched queues c, ?_⟩
  rw [Queueing.runSchedule_completions, Queueing.runSchedule_completions,
    hagree]

/-- Witness for C3: controller 0's completions under the interleaving
`[0, 1, 0]` are the first two commands of its queue, in order, unchanged
when controller 1's queue is replaced entirely. -/
theorem per_controller_fifo_and_independence_witness :
    Queueing.completionsFor 0
      (Queueing.runSchedule (fun d => if d = 0 then [10, 11, 12] else [20])
        [0, 1, 0]) =
      ((fun d => if d = 0 then [10, 11, 12] else [20]) 0).take
        ([0, 1, 0].count 0) ∧
    Queueing.completionsFor 0
      (Queueing.runSchedule (fun d => if d = 0 then [10, 11, 12] else [20])
        [0, 1, 0]) =
      Queueing.completionsFor 0
        (Queueing.runSchedule (fun d => if d = 0 then [10, 11, 12] else [99])
          [0, 1, 0]) :=
  per_controller_fifo_and_independence
    (fun d => if d = 0 then [10, 11, 12] else [20])
    (fun d => if d = 0 then [10, 11, 12] else [99]) [0, 1, 0] 0 rfl

namespace Gateway

/-- Modelled from the spec: the Session Gateway's response correlation
(§4.3), whose implementation file is not part of the sources — completion
events keyed by (client connection, command identifier) are delivered as
Responses in arrival order; `seen` holds the keys already responded to, and
a key already responded to is never delivered again.  Keys of different
client connections are distinct even when the identifiers coincide. -/
def deliver (seen : List (Nat × Nat)) : List (Nat × Nat) → List (Nat × Nat)
  | [] => []
  | e :: es =>
      if e ∈ seen then deliver seen es else e :: deliver (e :: seen) es

theorem mem_deliver (es : List (Nat × Nat)) :
    ∀ (seen : List (Nat × Nat)) (p : Nat × Nat),
      p ∈ deliver seen es ↔ p ∈ es ∧ p ∉ seen := by
  induction es with
  | nil => intro seen p; simp [deliver]
  | cons e es ih =>
      intro seen p
      by_cases he : e ∈ seen
      · simp only [deliver, if_pos he]
        rw [ih seen p]
        constructor
        · exact fun ⟨h1, h2⟩ => ⟨List.mem_cons_of_mem e h1, h2⟩
        · rintro ⟨h1, h2⟩
          rcases List.mem_cons.mp h1 with rfl | h1
          · exact absurd he h2
          · exact ⟨h1, h2⟩
      · simp only [deliver, if_neg he]
        by_cases hpe : p = e
        · subst hpe
          simp [he]
        · rw [List.mem_cons]
          simp only [hpe, false_or]
          rw [ih (e :: seen) p]
          simp [List.mem_cons, hpe]

theorem nodup_deliver (es : List (Nat × Nat)) :
    ∀ (seen : List (Nat × Nat)), (deliver seen es).Nodup := by
  induction es with
  | nil => intro seen; simp [deliver]
  | cons e es ih =>
      intro seen
      by_cases he : e ∈ seen
      · simp only [deliver, if_pos he]
        exact ih seen
      · simp only [deliver, if_neg he]
        refine List.nodup_cons.mpr ⟨?_, ih (e :: seen)⟩
        intro hmem
        exact ((mem_deliver es (e :: seen) e).mp hmem).2
          (List.mem_cons_self e seen)

theorem length_filter_key_le_one (l : List (Nat × Nat)) (a : Nat × Nat)
    (h : l.Nodup) : (l.filter (fun p => p = a)).length ≤ 1 := by
  induction l with
  | nil => simp
  | cons x l ih =>
      rw [List.filter_cons]
      by_cases hx : x = a
      · subst hx
        have hempty : l.filter (fun p => p = x) = [] := by
          rw [List.filter_eq_nil_iff]
          intro b hb hbx
          have hbx2 : b = x := of_decide_eq_true hbx
          exact (List.nodup_cons.mp h).1 (hbx2 ▸ hb)
        simp [hempty]
      · simp only [hx, decide_False, if_false]
        exact ih (List.nodup_cons.mp h).2

end Gateway

/-- C5: for every stream of completion events, the gateway delivers at most
one Response for each (client connection, command identifier) key, and the
identifier namespace is per connection: a key is delivered exactly when some
completion carries it, regardless of other clients reusing the same
identifier. -/
theorem at_most_one_response_per_client_and_id (es : List (Nat × Nat))
    (k i : Nat) :
    ((Gateway.deliver [] es).filter (fun p => p = (k, i))).length ≤ 1 ∧
    ((k, i) ∈ Gateway.deliver [] es ↔ (k, i) ∈ es) := by
  constructor
  · exact Gateway.length_filter_key_le_one _ (k, i) (Gateway.nodup_deliver es [])
  · rw [Gateway.mem_deliver]
    simp

namespace Polling

/-- A DataSample of the data model (§3): parameter name, decoded value,
sample timestamp. -/
structure DataSample where
  parameter : String
  value : Nat
  timestamp : Nat
deriving Repr, DecidableEq

/-- Per-tuple scheduler state: the completion time of the in-flight poll,
if one is outstanding. -/
structure TupleState where
  pending : Option Nat
deriving Repr, DecidableEq

/-- What the scheduler did at a tick. -/
inductive TickOutcome
  | issued
  | skipped
deriving Repr, DecidableEq

/-- Result of one tick: the tuple state afterwards, what happened, the
sample emitted for this tick if any, and the errors reported at this tick. -/
structure TickResult where
  state : TupleState
  outcome : TickOutcome
  emitted : Option DataSample
  errors : List String
deriving Repr, DecidableEq

/-- Modelled from the spec: the Polling Scheduler's action at one interval
boundary of a subscribed tuple (§4.4), whose implementation file is not part
of the sources — if the previous poll has not completed by this tick, the
tick is skipped rather than queued, with no error reported and no sample
emitted; otherwise a new upload is issued, completing `dur` later, and its
sample is emitted. -/
def tick (st : TupleState) (param : String) (now dur value : Nat) :
    TickResult :=
  match st.pending with
  | some tdone =>
      if now < tdone then ⟨st, .skipped, none, []⟩
      else ⟨⟨some (now + dur)⟩, .issued, some ⟨param, value, now⟩, []⟩
  | none => ⟨⟨some (now + dur)⟩, .issued, some ⟨param, value, now⟩, []⟩

/-- A run of the scheduler over a list of ticks `(now, dur, value)`. -/
def runTicks (st : TupleState) (param : String) :
    List (Nat × Nat × Nat) → List TickResult
  | [] => []
  | (now, dur, v) :: ts =>
      tick st param now dur v :: runTicks (tick st param now dur v).state param ts

theorem tick_skipped_eq (st : TupleState) (param : String)
    (now dur value : Nat) :
    (tick st param now dur value).outcome = TickOutcome.skipped →
      (tick st param now dur value).emitted = none ∧
      (tick st param now dur value).errors = [] ∧
      (tick st param now dur value).state = st := by
  unfold tick
  match st with
  | ⟨some tdone⟩ =>
      by_cases hlt : now < tdone
      · simp [hlt]
      · simp [hlt]
  | ⟨none⟩ => simp

end Polling

/-- C7: a tick of a subscribed tuple whose previous poll has not completed
yet is skipped rather than queued — the tuple state is unchanged, no error
is reported and no DataSample is emitted — and in every run of the
scheduler, every skipped tick emits no sample and reports no error. -/
theorem skipped_tick_not_queued_no_error_no_sample (st : Polling.TupleState)
    (param : String) (now dur value tdone : Nat)
    (hpend : st.pending = some tdone) (hbusy : now < tdone) :
    Polling.tick st param now dur value =
      ⟨st, Polling.TickOutcome.skipped, none, []⟩ ∧
    (∀ (st₂ : Polling.TupleState) (ts : List (Nat × Nat × Nat)),
      ∀ r ∈ Polling.runTicks st₂ param ts,
        r.outcome = Polling.TickOutcome.skipped →
          r.emitted = none ∧ r.errors = []) := by
  constructor
  · obtain ⟨p⟩ := st
    cases hpend
    simp [Polling.tick, hbusy]
  · intro st₂ ts
    induction ts generalizing st₂ with
    | nil => intro r hr; exact absurd hr (List.not_mem_nil r)
    | cons t ts ih =>
        obtain ⟨tnow, tdur, tv⟩ := t
        intro r hr hsk
        rcases List.mem_cons.mp hr with rfl | hr
        · have := Polling.tick_skipped_eq st₂ param tnow tdur tv hsk
          exact ⟨this.1, this.2.1⟩
        · exact ih _ r hr hsk

/-- Witness for C7: with a poll pending until time 10, the tick at time 5 is
skipped, leaving the state untouched and emitting nothing. -/
theorem skipped_tick_not_queued_no_error_no_sample_witness :
    Polling.tick ⟨some 10⟩ "volt" 5 3 7 =
      ⟨⟨some 10⟩, Polling.TickOutcome.skipped, none, []⟩ :=
  (skipped_tick_not_queued_no_error_no_sample ⟨some 10⟩ "volt" 5 3 7 10
    rfl (by decide)).1

/-- C10: the copier mounts the first partition — the resolved device path
with `"1"` appended — when that path exists, otherwise the whole device
path, and in both cases the mount point is `/mnt/elf_usb`. -/
theorem copier_mounts_partition_else_whole_device (target : String) :
    Copier.resolveDevice target true = "/dev/" ++ target ++ "1" ∧
    Copier.resolveDevice target false = "/dev/" ++ target ∧
    Copier.mount_point = "/mnt/elf_usb" ∧
    (∀ pe : Bool, Copier.mountCmd target pe =
      "mount " ++ Copier.resolveDevice target pe ++ " " ++ "/mnt/elf_usb") :=
  ⟨rfl, rfl, rfl, fun _ => rfl⟩
